import Mathlib

namespace QueryAgent

/-! Shallow embedding of the Query-AI-Agent entity-extraction pipeline:
data model (types.ts), CSV codec (Verification.tsx parseCsv, App.tsx
handleDownloadCsv), reconciliation (handleVerify), extractor error handling
(geminiService.ts extractEntitiesFromText) and PDF text normalization
(App.tsx readFileContent). -/

/-- Entity type from types.ts: the union 'Organisation' | 'Name'. -/
inductive EntityType where
  | Organisation
  | Name
deriving DecidableEq, Repr

/-- The string label of an entity type, as it appears in CSV cells. -/
def EntityType.label : EntityType → String
  | .Organisation => "Organisation"
  | .Name => "Name"

/-- The relation literal type from types.ts: exactly the string 'PAN_Of'. -/
inductive Relation where
  | PAN_Of
deriving DecidableEq, Repr

/-- The string label of the relation. -/
def Relation.label : Relation → String
  | .PAN_Of => "PAN_Of"

/-- The ExtractedEntity record from types.ts. -/
structure ExtractedEntity where
  pan : String
  relation : Relation
  entityName : String
  entityType : EntityType
deriving DecidableEq, Repr

/-- The ComparisonResult record from types.ts. -/
structure ComparisonResult where
  «matches» : List ExtractedEntity
  aiOnly : List ExtractedEntity
  groundTruthOnly : List ExtractedEntity
deriving DecidableEq, Repr

/-! ## JavaScript string primitives used by the source -/

/-- JavaScript whitespace (the common members of the regex class backslash-s
and of String.prototype.trim). -/
def isJsSpace (c : Char) : Bool :=
  c == ' ' || c == '\t' || c == '\n' || c == '\r' || c == '\x0b' || c == '\x0c' || c == '\xa0'

/-- JavaScript String.prototype.trim on a character list. -/
def jsTrim (cs : List Char) : List Char :=
  ((cs.dropWhile isJsSpace).reverse.dropWhile isJsSpace).reverse

/-- JavaScript split on the regex matching an optional carriage return
followed by a newline, as used in parseCsv. -/
def splitLinesJs : List Char → List (List Char)
  | [] => [[]]
  | c :: rest =>
    if c = '\n' then [] :: splitLinesJs rest
    else if c = '\r' then
      match rest with
      | [] => [[c]]
      | c2 :: rest2 =>
        if c2 = '\n' then [] :: splitLinesJs rest2
        else (c :: (splitLinesJs (c2 :: rest2)).headD []) :: (splitLinesJs (c2 :: rest2)).tail
    else (c :: (splitLinesJs rest).headD []) :: (splitLinesJs rest).tail

/-- JavaScript String.prototype.split on a comma (keeps empty pieces). -/
def splitComma : List Char → List (List Char)
  | [] => [[]]
  | c :: rest =>
    if c = ',' then [] :: splitComma rest
    else (c :: (splitComma rest).headD []) :: (splitComma rest).tail

/-- JavaScript replace of every double-quote character by the empty string. -/
def stripQuotes (cs : List Char) : List Char :=
  cs.filter (fun c => !(c == '"'))

/-- JavaScript Array.prototype.indexOf: first index or minus one. -/
def jsIndexOf (l : List (List Char)) (t : List Char) : Int :=
  match l.findIdx? (fun x => x == t) with
  | some i => (i : Int)
  | none => -1

/-- JavaScript array indexing returning undefined (none) when out of range. -/
def jsAt (vs : List (List Char)) (i : Int) : Option (List Char) :=
  if i < 0 then none else vs.get? i.toNat

/-! ## The tolerant field tokenizer of parseCsv

Model of the JavaScript global regex match with the pattern: a double-quoted
lazy run, or a nonempty run of non-comma non-quote characters, followed by a
lookahead requiring optional whitespace and then a comma or end of line. -/

/-- The lookahead: optional whitespace then a comma or the end of input. -/
def lookaheadOk (cs : List Char) : Bool :=
  match cs.dropWhile isJsSpace with
  | [] => true
  | c :: _ => c == ','

/-- A JavaScript LineTerminator: the four characters the regex dot never
matches (newline, carriage return, line separator, paragraph separator). -/
def isLineTerminator (c : Char) : Bool :=
  c = '\n' || c = '\r' || c = '\u2028' || c = '\u2029'

/-- Lazy scan for the closing quote of a quoted run: the earliest closing
quote at which the lookahead succeeds; a quote where the lookahead fails is
backtracked into the run; the dot never matches a line terminator. Returns
the run contents and the characters after the closing quote. -/
def scanQuoted : List Char → Option (List Char × List Char)
  | [] => none
  | c :: rest =>
    if c = '"' then
      if lookaheadOk rest then some ([], rest)
      else (scanQuoted rest).map (fun p => ('"' :: p.1, p.2))
    else if isLineTerminator c then none
    else (scanQuoted rest).map (fun p => (c :: p.1, p.2))

/-- A bare-field character: neither a double quote nor a comma. -/
def isBareChar (c : Char) : Bool := !(c == '"') && !(c == ',')

/-- Greedy-with-backtracking choice of the bare-run length: the longest
prefix length at most n at which the lookahead succeeds. -/
def tryLengths (cs : List Char) : Nat → Option (List Char × List Char)
  | 0 => none
  | n+1 =>
    if lookaheadOk (cs.drop (n+1)) then some (cs.take (n+1), cs.drop (n+1))
    else tryLengths cs n

/-- The bare-run alternative of the field regex. -/
def bareMatch (cs : List Char) : Option (List Char × List Char) :=
  tryLengths cs (cs.takeWhile isBareChar).length

/-- One attempted match at the current position: the quoted alternative
first, then the bare alternative. -/
def tokenAt (cs : List Char) : Option (List Char × List Char) :=
  match cs with
  | [] => none
  | c :: rest =>
    if c = '"' then
      match scanQuoted rest with
      | some p => some ('"' :: p.1 ++ ['"'], p.2)
      | none => bareMatch (c :: rest)
    else bareMatch (c :: rest)

/-- The global-match scan: at each position match a token or advance one
character; fuel bounds the recursion and the input length always suffices. -/
def goTokens : Nat → List Char → List (List Char)
  | 0, _ => []
  | _+1, [] => []
  | f+1, c :: rest =>
    match tokenAt (c :: rest) with
    | some p => p.1 :: goTokens f p.2
    | none => goTokens f rest

/-- All field tokens of one CSV data line. -/
def tokenize (cs : List Char) : List (List Char) :=
  goTokens cs.length cs

/-! ## CSV import (parseCsv in Verification.tsx) -/

/-- Header cells: naive comma split, then trim, then quote stripping. -/
def headerCells (line : List Char) : List (List Char) :=
  (splitComma line).map (fun h => stripQuotes (jsTrim h))

/-- The field values of a data line: tokens with every quote removed. -/
def lineValues (line : List Char) : List (List Char) :=
  (tokenize line).map (fun v => stripQuotes v)

/-- One record built from a data line and the three header positions. -/
def rowEntity (panIndex nameIndex typeIndex : Int) (line : List Char) : ExtractedEntity :=
  let values := lineValues line
  ⟨String.mk (jsTrim ((jsAt values panIndex).getD []))
  , Relation.PAN_Of
  , String.mk (jsTrim ((jsAt values nameIndex).getD []))
  , if jsTrim ((jsAt values typeIndex).getD []) == ("Organisation").data then
      EntityType.Organisation
    else EntityType.Name⟩

/-- The message of the error thrown when a required header is missing. -/
def missingMsg : String :=
  "CSV must contain \"PAN\", \"Entity Name\", and \"Entity Type\" headers."

/-- parseCsv after the line split: length guard, header lookup, row loop
with the silent drop of rows whose pan or name is empty. -/
def parseCsvLines (lines : List (List Char)) : Except String (List ExtractedEntity) :=
  if lines.length < 2 then Except.ok []
  else
    let headers := headerCells (lines.headD [])
    let panIndex := jsIndexOf headers (("PAN").data)
    let nameIndex := jsIndexOf headers (("Entity Name").data)
    let typeIndex := jsIndexOf headers (("Entity Type").data)
    if panIndex == -1 || nameIndex == -1 || typeIndex == -1 then Except.error missingMsg
    else
      Except.ok (((lines.drop 1).map (rowEntity panIndex nameIndex typeIndex)).filter
        (fun e => !(e.pan == "") && !(e.entityName == "")))

/-- parseCsv from Verification.tsx: trim the text, split into lines, parse. -/
def parseCsv (csvText : String) : Except String (List ExtractedEntity) :=
  parseCsvLines (splitLinesJs (jsTrim csvText.data))

/-! ## CSV export (handleDownloadCsv in App.tsx) -/

/-- JavaScript replace of every double quote by two double quotes. -/
def escapeQuotes : List Char → List Char
  | [] => []
  | c :: rest => if c == '"' then '"' :: '"' :: escapeQuotes rest else c :: escapeQuotes rest

/-- Wrap a field value in double quotes. -/
def quoteField (cs : List Char) : List Char :=
  '"' :: cs ++ ['"']

/-- JavaScript Array.prototype.join with a separator. -/
def joinWith (sep : List Char) : List (List Char) → List Char
  | [] => []
  | [x] => x
  | x :: xs => x ++ sep ++ joinWith sep xs

/-- The header row of the exported CSV. -/
def csvHeaderRow : List Char :=
  joinWith [','] [("PAN").data, ("Relation").data, ("Entity Name").data, ("Entity Type").data]

/-- One exported CSV row: all four fields quoted, quotes doubled in the
entity name only. -/
def csvRowChars (item : ExtractedEntity) : List Char :=
  joinWith [','] [quoteField item.pan.data, quoteField item.relation.label.data,
    quoteField (escapeQuotes item.entityName.data), quoteField item.entityType.label.data]

/-- The full exported CSV: header row then one row per record, joined by
newlines. -/
def toCsvChars (records : List ExtractedEntity) : List Char :=
  joinWith ['\n'] (csvHeaderRow :: records.map csvRowChars)

/-- The identifier-set diff from handleVerify: matches and aiOnly filter the
extracted list by membership of the pan in the ground-truth pan set,
groundTruthOnly filters the ground-truth list by absence from the extracted
pan set. -/
def compare (aiData groundTruthData : List ExtractedEntity) : ComparisonResult :=
  let aiPans := aiData.map ExtractedEntity.pan
  let gtPans := groundTruthData.map ExtractedEntity.pan
  ⟨aiData.filter (fun d => gtPans.contains d.pan)
  , aiData.filter (fun d => !(gtPans.contains d.pan))
  , groundTruthData.filter (fun d => !(aiPans.contains d.pan))⟩

/-! ## PDF text normalization (readFileContent in App.tsx) -/

/-- One page's text: the str field of each text item (empty when absent),
joined with single spaces. -/
def pageText (items : List (Option String)) : String :=
  String.mk (joinWith [' '] (items.map (fun it => (it.getD ("")).data)))

/-- The page loop: pages processed in order, each page's text plus a newline
appended to the accumulator. -/
def pdfFullText (pages : List (List (Option String))) : String :=
  pages.foldl (fun fullText p => fullText ++ pageText p ++ "\n") ""

/-- Splitting a character list at each newline (for stating the
one-block-per-page property). -/
def splitNl : List Char → List (List Char)
  | [] => [[]]
  | c :: rest =>
    if c = '\n' then [] :: splitNl rest
    else (c :: (splitNl rest).headD []) :: (splitNl rest).tail

/-- Interleave two lists according to a boolean mask: true takes from the
first list, false from the second (for stating that matches and aiOnly
recombine, by original position, into the extracted input). -/
def mergeByMask : List Bool → List ExtractedEntity → List ExtractedEntity → List ExtractedEntity
  | true :: m, a :: as, bs => a :: mergeByMask m as bs
  | false :: m, as, b :: bs => b :: mergeByMask m as bs
  | _, _, _ => []

/-! ## JSON values and a model of the JSON.parse builtin

The extractor feeds the service payload to JSON.parse; its result is not
converted, only checked with Array.isArray, so the embedded extractor
returns raw JSON array elements. Numbers are kept as their lexeme since no
claim depends on numeric value. -/

/-- A parsed JSON value. -/
inductive Json where
  | null
  | bool (b : Bool)
  | num (lexeme : String)
  | str (s : String)
  | arr (elems : List Json)
  | obj (fields : List (String × Json))

/-- JSON insignificant whitespace. -/
def jsonWs (c : Char) : Bool :=
  c == ' ' || c == '\t' || c == '\n' || c == '\r'

/-- Single-character string escapes of JSON. -/
def escChar : Char → Option Char
  | '"' => some '"'
  | '\\' => some '\\'
  | '/' => some '/'
  | 'b' => some '\x08'
  | 'f' => some '\x0c'
  | 'n' => some '\n'
  | 'r' => some '\r'
  | 't' => some '\t'
  | _ => none

/-- Hexadecimal digit test. -/
def isHexDig (c : Char) : Bool :=
  c.isDigit || ('a' ≤ c && c ≤ 'f') || ('A' ≤ c && c ≤ 'F')

/-- Hexadecimal digit value. -/
def hexVal (c : Char) : Nat :=
  if c.isDigit then c.toNat - ('0').toNat
  else if 'a' ≤ c && c ≤ 'f' then c.toNat - ('a').toNat + 10
  else if 'A' ≤ c && c ≤ 'F' then c.toNat - ('A').toNat + 10
  else 0

/-- Body of a JSON string after the opening quote: characters up to the
closing quote, honouring escapes. -/
def parseStrBody : List Char → Option (List Char × List Char)
  | [] => none
  | '"' :: rest => some ([], rest)
  | '\\' :: 'u' :: a :: b :: c :: d :: rest =>
    if isHexDig a && isHexDig b && isHexDig c && isHexDig d then
      (parseStrBody rest).map
        (fun p => (Char.ofNat (((hexVal a * 16 + hexVal b) * 16 + hexVal c) * 16 + hexVal d) :: p.1, p.2))
    else none
  | '\\' :: e :: rest =>
    match escChar e with
    | some c => (parseStrBody rest).map (fun p => (c :: p.1, p.2))
    | none => none
  | c :: rest => (parseStrBody rest).map (fun p => (c :: p.1, p.2))

/-- Exponent part of a JSON number. -/
def expPart (sign ip fp : List Char) (r : List Char) : Option (Json × List Char) :=
  let sp := match r with
    | '+' :: rr => ((['+'] : List Char), rr)
    | '-' :: rr => ((['-'] : List Char), rr)
    | _ => (([] : List Char), r)
  let ds := sp.2.takeWhile Char.isDigit
  if ds.isEmpty then none
  else some (Json.num (String.mk (sign ++ ip ++ fp ++ 'e' :: sp.1 ++ ds)), sp.2.drop ds.length)

/-- Optional exponent after the integer and fraction parts. -/
def finishNum (sign ip fp : List Char) (rest : List Char) : Option (Json × List Char) :=
  match rest with
  | 'e' :: r => expPart sign ip fp r
  | 'E' :: r => expPart sign ip fp r
  | _ => some (Json.num (String.mk (sign ++ ip ++ fp)), rest)

/-- A JSON number: optional minus, integer part without leading zeros,
optional fraction, optional exponent; the lexeme is kept verbatim. -/
def parseNum (cs : List Char) : Option (Json × List Char) :=
  let sp := match cs with
    | '-' :: r => ((['-'] : List Char), r)
    | _ => (([] : List Char), cs)
  let ip := sp.2.takeWhile Char.isDigit
  let r2 := sp.2.drop ip.length
  if ip.isEmpty then none
  else if decide (1 < ip.length) && ip.headD '0' == '0' then none
  else
    match r2 with
    | '.' :: r =>
      let fp := r.takeWhile Char.isDigit
      if fp.isEmpty then none
      else finishNum sp.1 ip ('.' :: fp) (r.drop fp.length)
    | _ => finishNum sp.1 ip [] r2

/-- Which production a recursive-descent step parses: one value, the items
of an array after the opening bracket, or the fields of an object after the
opening brace. -/
inductive JMode where
  | value
  | items
  | fields

/-- Result of a recursive-descent step. -/
inductive JOut where
  | one (v : Json)
  | many (vs : List Json)
  | pairs (fs : List (String × Json))

/-- Fuel-bounded recursive descent over the JSON grammar. -/
def parseCore : Nat → JMode → List Char → Option (JOut × List Char)
  | 0, _, _ => none
  | f+1, JMode.value, cs =>
    match cs with
    | [] => none
    | '"' :: rest => (parseStrBody rest).map (fun p => (JOut.one (Json.str (String.mk p.1)), p.2))
    | '[' :: rest =>
      (match rest.dropWhile jsonWs with
       | ']' :: r2 => some (JOut.one (Json.arr []), r2)
       | r =>
         match parseCore f JMode.items r with
         | some (JOut.many vs, r2) => some (JOut.one (Json.arr vs), r2)
         | _ => none)
    | '\x7b' :: rest =>
      (match rest.dropWhile jsonWs with
       | '\x7d' :: r2 => some (JOut.one (Json.obj []), r2)
       | r =>
         match parseCore f JMode.fields r with
         | some (JOut.pairs fs, r2) => some (JOut.one (Json.obj fs), r2)
         | _ => none)
    | 't' :: 'r' :: 'u' :: 'e' :: rest => some (JOut.one (Json.bool true), rest)
    | 'f' :: 'a' :: 'l' :: 's' :: 'e' :: rest => some (JOut.one (Json.bool false), rest)
    | 'n' :: 'u' :: 'l' :: 'l' :: rest => some (JOut.one Json.null, rest)
    | c :: _ => if c == '-' || c.isDigit then (parseNum cs).map (fun p => (JOut.one p.1, p.2)) else none
  | f+1, JMode.items, cs =>
    match parseCore f JMode.value cs with
    | some (JOut.one v, rest) =>
      (match rest.dropWhile jsonWs with
       | ',' :: r2 =>
         (match parseCore f JMode.items (r2.dropWhile jsonWs) with
          | some (JOut.many vs, r3) => some (JOut.many (v :: vs), r3)
          | _ => none)
       | ']' :: r2 => some (JOut.many [v], r2)
       | _ => none)
    | _ => none
  | f+1, JMode.fields, cs =>
    match cs with
    | '"' :: rest =>
      (match parseStrBody rest with
       | none => none
       | some (key, r1) =>
         match r1.dropWhile jsonWs with
         | ':' :: r2 =>
           (match parseCore f JMode.value (r2.dropWhile jsonWs) with
            | some (JOut.one v, r3) =>
              (match r3.dropWhile jsonWs with
               | ',' :: r4 =>
                 (match parseCore f JMode.fields (r4.dropWhile jsonWs) with
                  | some (JOut.pairs fs, r5) => some (JOut.pairs ((String.mk key, v) :: fs), r5)
                  | _ => none)
               | '\x7d' :: r4 => some (JOut.pairs [(String.mk key, v)], r4)
               | _ => none)
            | _ => none)
         | _ => none)
    | _ => none

/-- Model of JSON.parse: parse one value, allow surrounding whitespace,
reject trailing content. -/
def parseJson (s : String) : Option Json :=
  let cs := s.data.dropWhile jsonWs
  match parseCore (2 * cs.length + 2) JMode.value cs with
  | some (JOut.one v, rest) => if rest.dropWhile jsonWs = [] then some v else none
  | _ => none

/-! ## Extractor error handling (extractEntitiesFromText) -/

/-- A JavaScript exception inside the try block, split by whether the
runtime class is SyntaxError (thrown only by JSON.parse) or any other
Error (thrown by the service call or by the explicit throw statements). -/
inductive CallError where
  | parseFailure (msg : String)
  | generic (msg : String)
deriving DecidableEq, Repr

/-- Message of the rethrown error when the caught error is a SyntaxError. -/
def malformedMsg : String := "Failed to parse the AI's response. The data may be malformed."

/-- Message of the rethrown error for every other caught error. -/
def serviceMsg : String := "Failed to extract entities from the document. The AI model returned an error."

/-- Message of the error thrown for an empty trimmed payload. -/
def emptyMsg : String := "AI returned an empty response."

/-- Message of the error thrown when the parsed payload is not an array. -/
def notArrayMsg : String := "AI response is not in the expected array format."

/-- The try-block body of extractEntitiesFromText: the capability outcome is
the input (an error models a failed service call); then trim, empty check,
JSON.parse, Array.isArray check. -/
def extractCore (capability : Except CallError String) : Except CallError (List Json) :=
  match capability with
  | Except.error e => Except.error e
  | Except.ok raw =>
    let jsonResponse := jsTrim raw.data
    if jsonResponse.isEmpty then Except.error (CallError.generic emptyMsg)
    else
      match parseJson (String.mk jsonResponse) with
      | none => Except.error (CallError.parseFailure "Unexpected token in JSON")
      | some (Json.arr xs) => Except.ok xs
      | some _ => Except.error (CallError.generic notArrayMsg)

/-- extractEntitiesFromText with its catch clause: a SyntaxError is
rethrown with the malformed message, every other error with the service
message. -/
def extractEntitiesFromText (capability : Except CallError String) : Except String (List Json) :=
  match extractCore capability with
  | Except.ok xs => Except.ok xs
  | Except.error (CallError.parseFailure _) => Except.error malformedMsg
  | Except.error (CallError.generic _) => Except.error serviceMsg

/-! ## Helper lemmas -/

/-- Interleaving the two complementary filters of a list by the mask of the
predicate restores the list. -/
lemma mergeByMask_filter (p : ExtractedEntity → Bool) (l : List ExtractedEntity) :
    mergeByMask (l.map p) (l.filter p) (l.filter (fun x => !(p x))) = l := by
  induction l with
  | nil => rfl
  | cons a t ih =>
    by_cases h : p a
    · simp [List.filter_cons, h, mergeByMask, ih]
    · simp only [List.map_cons, List.filter_cons, h, Bool.false_eq_true, if_false,
        Bool.not_false, if_true, eq_self_iff_true]
      simp only [Bool.not_eq_true] at h
      simp [h, mergeByMask, ih]

/-! ## Claim theorems -/

/-- C1: compare partitions by identifier-set membership: matches is exactly
the extracted records whose pan occurs among the ground-truth pans, aiOnly
exactly those whose pan does not, groundTruthOnly exactly the ground-truth
records whose pan occurs in no extracted record; matching looks only at the
pan (exact string equality), every extracted record lands in exactly one of
matches and aiOnly (as a permutation fact counting duplicates separately),
and the section-8 example evaluates as stated. -/
theorem claimC1 (e g : List ExtractedEntity) :
    (∀ r, r ∈ (compare e g).«matches» ↔ r ∈ e ∧ r.pan ∈ g.map ExtractedEntity.pan) ∧
    (∀ r, r ∈ (compare e g).aiOnly ↔ r ∈ e ∧ r.pan ∉ g.map ExtractedEntity.pan) ∧
    (∀ r, r ∈ (compare e g).groundTruthOnly ↔ r ∈ g ∧ r.pan ∉ e.map ExtractedEntity.pan) ∧
    ((compare e g).«matches» ++ (compare e g).aiOnly).Perm e ∧
    compare [⟨"A", Relation.PAN_Of, "X", EntityType.Name⟩, ⟨"B", Relation.PAN_Of, "Y", EntityType.Organisation⟩]
        [⟨"B", Relation.PAN_Of, "Y", EntityType.Name⟩, ⟨"C", Relation.PAN_Of, "Z", EntityType.Name⟩]
      = ⟨[⟨"B", Relation.PAN_Of, "Y", EntityType.Organisation⟩],
         [⟨"A", Relation.PAN_Of, "X", EntityType.Name⟩],
         [⟨"C", Relation.PAN_Of, "Z", EntityType.Name⟩]⟩ := by
  refine ⟨?_, ?_, ?_, ?_, by decide⟩
  · intro r; simp [compare, List.mem_filter]
  · intro r; simp [compare, List.mem_filter]
  · intro r; simp [compare, List.mem_filter]
  · simpa [compare] using
      List.filter_append_perm (fun d => (g.map ExtractedEntity.pan).contains d.pan) e

/-- C10: compare returns the input records themselves: matches and aiOnly
are complementary order-preserving subsequences of the extracted input and
interleaving them by the original positions (the membership mask) restores
the extracted list exactly; groundTruthOnly is an order-preserving
subsequence of the ground-truth input. -/
theorem claimC10 (e g : List ExtractedEntity) :
    (compare e g).«matches».Sublist e ∧
    (compare e g).aiOnly.Sublist e ∧
    (compare e g).groundTruthOnly.Sublist g ∧
    mergeByMask (e.map (fun d => (g.map ExtractedEntity.pan).contains d.pan))
      (compare e g).«matches» (compare e g).aiOnly = e := by
  refine ⟨List.filter_sublist e, List.filter_sublist e, List.filter_sublist g, ?_⟩
  exact mergeByMask_filter (fun d => (g.map ExtractedEntity.pan).contains d.pan) e

/-- C2: contrary to the claim, an empty or whitespace-only payload does not
surface a distinct EmptyResponse error: the throw with the empty-response
message happens inside the try block and the catch-all rethrows it with the
same generic service message that a transport failure produces; the parse
failure on a non-JSON payload is the only distinct case. The conjuncts
evaluate the code at the failing inputs. -/
theorem claimC2 :
    extractEntitiesFromText (Except.ok ("")) = Except.error serviceMsg ∧
    extractEntitiesFromText (Except.ok (" \t  ")) = Except.error serviceMsg ∧
    extractEntitiesFromText (Except.error (CallError.generic ("network failure"))) = Except.error serviceMsg ∧
    extractCore (Except.ok ("")) = Except.error (CallError.generic emptyMsg) ∧
    extractEntitiesFromText (Except.ok ("\x7bnot json")) = Except.error malformedMsg ∧
    serviceMsg ≠ malformedMsg :=
  ⟨rfl, rfl, rfl, rfl, rfl, by decide⟩

/-- Unfolding of joinWith on a list of at least two pieces. -/
lemma joinWith_cons2 (sep x y : List Char) (ys : List (List Char)) :
    joinWith sep (x :: y :: ys) = x ++ sep ++ joinWith sep (y :: ys) := rfl

/-- joinWith with a singleton separator as a flatten of tagged pieces. -/
lemma joinWith_cons_flat (c : Char) (x : List Char) (xs : List (List Char)) :
    joinWith [c] (x :: xs) = x ++ List.flatten (xs.map (fun y => c :: y)) := by
  induction xs generalizing x with
  | nil => simp [joinWith]
  | cons y ys ih =>
    rw [joinWith_cons2, ih y]
    simp [List.append_assoc]

/-- Every character of a joinWith comes from the separator or a piece. -/
lemma mem_joinWith (sep : List Char) (ls : List (List Char)) (c : Char)
    (h : c ∈ joinWith sep ls) : c ∈ sep ∨ ∃ l ∈ ls, c ∈ l := by
  induction ls with
  | nil => simp [joinWith] at h
  | cons x xs ih =>
    cases xs with
    | nil =>
      simp only [joinWith] at h
      exact Or.inr ⟨x, by simp, h⟩
    | cons y ys =>
      rw [joinWith_cons2] at h
      simp only [List.mem_append] at h
      rcases h with (h | h) | h
      · exact Or.inr ⟨x, by simp, h⟩
      · exact Or.inl h
      · rcases ih h with h | ⟨l, hl, hc⟩
        · exact Or.inl h
        · exact Or.inr ⟨l, List.mem_cons_of_mem _ hl, hc⟩

/-- splitNl peels one newline-terminated newline-free block. -/
lemma splitNl_block (a rest : List Char) (ha : ('\n') ∉ a) :
    splitNl (a ++ '\n' :: rest) = a :: splitNl rest := by
  induction a with
  | nil => simp [splitNl]
  | cons c t ih =>
    have hc : ¬ c = '\n' := by intro e; subst e; exact ha (List.mem_cons_self _ _)
    have ht : ('\n') ∉ t := fun m => ha (List.mem_cons_of_mem c m)
    simp [splitNl, hc, ih ht]

/-- splitNl of a concatenation of newline-terminated newline-free blocks. -/
lemma splitNl_flatten (blocks : List (List Char)) (hb : ∀ b ∈ blocks, ('\n') ∉ b) :
    splitNl (List.flatten (blocks.map (fun b => b ++ ['\n']))) = blocks ++ [[]] := by
  induction blocks with
  | nil => rfl
  | cons b t ih =>
    simp only [List.map_cons, List.flatten_cons, List.append_assoc, List.singleton_append]
    rw [splitNl_block _ _ (hb b (List.mem_cons_self _ _)),
      ih (fun x hx => hb x (List.mem_cons_of_mem _ hx))]
    rfl

/-! ## C7: PDF normalization -/

/-- The page fold accumulates exactly the newline-terminated page blocks. -/
lemma pdfFullText_data (pages : List (List (Option String))) (acc : String) :
    (pages.foldl (fun fullText p => fullText ++ pageText p ++ "\n") acc).data
      = acc.data ++ List.flatten (pages.map (fun p => (pageText p).data ++ ['\n'])) := by
  induction pages generalizing acc with
  | nil => simp
  | cons p t ih =>
    have hnl : ("\n").data = ['\n'] := rfl
    simp only [List.foldl_cons, ih, List.map_cons, List.flatten_cons, String.data_append, hnl,
      List.append_assoc]

/-- A page's text contains no newline when no fragment does. -/
lemma pageText_no_nl (p : List (Option String))
    (h : ∀ it ∈ p, ∀ s, it = some s → ('\n') ∉ s.data) :
    ('\n') ∉ (pageText p).data := by
  intro hm
  rcases mem_joinWith _ _ _ hm with hs | ⟨l, hl, hc⟩
  · simp at hs
  · rcases List.mem_map.mp hl with ⟨it, hit, rfl⟩
    cases it with
    | none => simp at hc
    | some s => exact h _ hit s rfl hc

/-- C7: the normalized text of a PDF is exactly the concatenation, in page
order, of each page's fragments joined by single spaces followed by one
newline; splitting the output at newlines yields one block per page (plus
the empty trailing piece after the final newline). -/
theorem claimC7 (pages : List (List (Option String)))
    (h : ∀ p ∈ pages, ∀ it ∈ p, ∀ s, it = some s → ('\n') ∉ s.data) :
    (pdfFullText pages).data
        = List.flatten (pages.map (fun p => (pageText p).data ++ ['\n'])) ∧
    splitNl (pdfFullText pages).data
        = pages.map (fun p => (pageText p).data) ++ [[]] := by
  have h1 : (pdfFullText pages).data
      = List.flatten (pages.map (fun p => (pageText p).data ++ ['\n'])) := by
    simpa using pdfFullText_data pages ""
  refine ⟨h1, ?_⟩
  rw [h1, show pages.map (fun p => (pageText p).data ++ ['\n'])
      = (pages.map (fun p => (pageText p).data)).map (fun b => b ++ ['\n']) by
        simp [List.map_map]]
  rw [splitNl_flatten]
  intro b hb
  rcases List.mem_map.mp hb with ⟨p, hp, rfl⟩
  exact pageText_no_nl p (h p hp)

/-- Witness for C7 at a concrete two-page document. -/
theorem claimC7_witness :
    (pdfFullText [[some ("page"), some ("one")], [none, some ("two")]]).data
        = List.flatten ([[some ("page"), some ("one")], [none, some ("two")]].map
            (fun p => (pageText p).data ++ ['\n'])) ∧
    splitNl (pdfFullText [[some ("page"), some ("one")], [none, some ("two")]]).data
        = [[some ("page"), some ("one")], [none, some ("two")]].map
            (fun p => (pageText p).data) ++ [[]] :=
  claimC7 [[some ("page"), some ("one")], [none, some ("two")]] (by decide)

/-! ## C8: exported CSV shape -/

/-- Appending a nonempty list on the right fixes the last element. -/
lemma getLast?_append_right (a b : List Char) (hb : b ≠ []) :
    (a ++ b).getLast? = b.getLast? := by
  rw [List.getLast?_append]
  cases hbl : b.getLast? with
  | none => exact absurd (List.getLast?_eq_none_iff.mp hbl) hb
  | some c => rfl

/-- A quoted field always ends with a double quote. -/
lemma quoteField_getLast (cs : List Char) : (quoteField cs).getLast? = some '"' := by
  show (('"' :: cs) ++ ['"']).getLast? = some '"'
  exact List.getLast?_concat _

/-- An exported row always ends with a double quote. -/
lemma csvRow_getLast (r : ExtractedEntity) : (csvRowChars r).getLast? = some '"' := by
  unfold csvRowChars
  rw [joinWith_cons2, joinWith_cons2, joinWith_cons2]
  rw [getLast?_append_right _ _ (by simp [quoteField]),
    getLast?_append_right _ _ (by simp [quoteField]),
    getLast?_append_right _ _ (by simp [joinWith, quoteField])]
  simpa [joinWith] using quoteField_getLast r.entityType.label.data

/-- The joined rows of a nonempty record list end with a double quote. -/
lemma rows_getLast (r : ExtractedEntity) (rs : List ExtractedEntity) :
    (joinWith ['\n'] ((r :: rs).map csvRowChars)).getLast? = some '"' := by
  induction rs generalizing r with
  | nil => simpa [joinWith] using csvRow_getLast r
  | cons r2 t ih =>
    simp only [List.map_cons]
    rw [joinWith_cons2, List.append_assoc,
      getLast?_append_right _ _ ?hb]
    case hb =>
      intro hnil
      have := ih r2
      simp only [List.map_cons] at this
      rw [show ['\n'] ++ joinWith ['\n'] (csvRowChars r2 :: t.map csvRowChars)
          = '\n' :: joinWith ['\n'] (csvRowChars r2 :: t.map csvRowChars) from rfl] at hnil
      exact List.noConfusion hnil
    rw [show ['\n'] ++ joinWith ['\n'] (csvRowChars r2 :: t.map csvRowChars)
        = '\n' :: joinWith ['\n'] (csvRowChars r2 :: t.map csvRowChars) from rfl]
    rw [List.getLast?_cons]
    have := ih r2
    simp only [List.map_cons] at this
    rw [this]
    rfl

/-- The exported CSV never ends with a newline. -/
lemma toCsv_getLast_ne_nl (records : List ExtractedEntity) :
    (toCsvChars records).getLast? ≠ some '\n' := by
  cases records with
  | nil => decide
  | cons r rs =>
    unfold toCsvChars
    simp only [List.map_cons]
    rw [joinWith_cons2, List.append_assoc, getLast?_append_right _ _ ?hb]
    case hb =>
      intro hnil
      have := rows_getLast r rs
      simp only [List.map_cons] at this
      rw [show ['\n'] ++ joinWith ['\n'] (csvRowChars r :: rs.map csvRowChars)
          = '\n' :: joinWith ['\n'] (csvRowChars r :: rs.map csvRowChars) from rfl] at hnil
      exact List.noConfusion hnil
    rw [show ['\n'] ++ joinWith ['\n'] (csvRowChars r :: rs.map csvRowChars)
        = '\n' :: joinWith ['\n'] (csvRowChars r :: rs.map csvRowChars) from rfl]
    rw [List.getLast?_cons]
    have := rows_getLast r rs
    simp only [List.map_cons] at this
    rw [this]
    decide

/-- Doubling quotes exactly doubles the quote count. -/
lemma escapeQuotes_count (cs : List Char) :
    (escapeQuotes cs).count '"' = 2 * cs.count '"' := by
  induction cs with
  | nil => rfl
  | cons c t ih =>
    by_cases h : c = '"'
    · subst h
      simp [escapeQuotes, List.count_cons, ih]
      omega
    · have hb : (c == '"') = false := by simp [h]
      simp [escapeQuotes, hb, List.count_cons, ih, h]

/-- C8: the exported CSV is the exact header row followed by one row per
record in input order, rows joined by single newlines with no trailing
newline; every field of a row is wrapped in double quotes and quote
characters in the entity name are escaped by doubling (exactly doubling the
quote count). -/
theorem claimC8 (records : List ExtractedEntity) :
    toCsvChars records = ("PAN,Relation,Entity Name,Entity Type").data
        ++ List.flatten (records.map (fun r => '\n' :: csvRowChars r)) ∧
    (∀ r ∈ records, csvRowChars r =
        quoteField r.pan.data ++ ',' :: quoteField (("PAN_Of").data)
          ++ ',' :: quoteField (escapeQuotes r.entityName.data)
          ++ ',' :: quoteField r.entityType.label.data) ∧
    (toCsvChars records).getLast? ≠ some '\n' ∧
    (∀ r ∈ records, (escapeQuotes r.entityName.data).count '"'
        = 2 * r.entityName.data.count '"') := by
  refine ⟨?_, ?_, toCsv_getLast_ne_nl records, fun r _ => escapeQuotes_count r.entityName.data⟩
  · unfold toCsvChars
    rw [joinWith_cons_flat]
    have hh : csvHeaderRow = ("PAN,Relation,Entity Name,Entity Type").data := by decide
    rw [hh, List.map_map]
    rfl
  · intro r _
    rcases r with ⟨pan, rel, nm, ty⟩
    cases rel
    simp [csvRowChars, joinWith_cons2, joinWith, Relation.label, List.append_assoc]

/-! ## C4: when CSV import fails -/

/-- C4 (amended): parseCsv fails exactly when the (trimmed, line-split)
input has at least two lines and at least one of the three required header
names is absent from the quote-stripped header cells; the failure always
carries the one fixed message; fewer than two lines always yield the empty
success; a CSV whose header lacks only Entity Type fails. Data-row content
never influences failure. -/
theorem claimC4 (s : String) :
    (parseCsv s = Except.error missingMsg ↔
      2 ≤ (splitLinesJs (jsTrim s.data)).length ∧
      (jsIndexOf (headerCells ((splitLinesJs (jsTrim s.data)).headD [])) (("PAN").data) == -1
        || jsIndexOf (headerCells ((splitLinesJs (jsTrim s.data)).headD [])) (("Entity Name").data) == -1
        || jsIndexOf (headerCells ((splitLinesJs (jsTrim s.data)).headD [])) (("Entity Type").data) == -1)
        = true) ∧
    (parseCsv s = Except.error missingMsg ∨ ∃ recs, parseCsv s = Except.ok recs) ∧
    (2 ≤ (splitLinesJs (jsTrim s.data)).length ∨ parseCsv s = Except.ok []) ∧
    parseCsv ("PAN,Entity Name\nA,B") = Except.error missingMsg := by
  by_cases h2 : (splitLinesJs (jsTrim s.data)).length < 2
  · have hval : parseCsv s = Except.ok [] := by
      unfold parseCsv parseCsvLines
      rw [if_pos h2]
    rw [hval]
    refine ⟨⟨fun h => absurd h (by simp), fun hh => absurd hh.1 (by omega)⟩,
      Or.inr ⟨[], rfl⟩, Or.inr rfl, rfl⟩
  · by_cases hc :
      (jsIndexOf (headerCells ((splitLinesJs (jsTrim s.data)).headD [])) (("PAN").data) == -1
        || jsIndexOf (headerCells ((splitLinesJs (jsTrim s.data)).headD [])) (("Entity Name").data) == -1
        || jsIndexOf (headerCells ((splitLinesJs (jsTrim s.data)).headD [])) (("Entity Type").data) == -1)
        = true
    · have hval : parseCsv s = Except.error missingMsg := by
        unfold parseCsv parseCsvLines
        rw [if_neg h2, if_pos hc]
      rw [hval]
      exact ⟨⟨fun _ => ⟨by omega, hc⟩, fun _ => rfl⟩, Or.inl rfl, Or.inl (by omega), rfl⟩
    · have hval : ∃ recs, parseCsv s = Except.ok recs := by
        unfold parseCsv parseCsvLines
        rw [if_neg h2, if_neg hc]
        exact ⟨_, rfl⟩
      obtain ⟨recs, hval⟩ := hval
      rw [hval]
      refine ⟨⟨fun h => absurd h (by simp), fun hh => absurd hh.2 hc⟩,
        Or.inr ⟨recs, rfl⟩, Or.inl (by omega), rfl⟩

/-- C4 (counterexample): the failure message never identifies which of the
three columns are absent: a header missing only Entity Type and a header
missing all three produce the identical error. -/
theorem claimC4_counterexample :
    parseCsv ("PAN,Entity Name\nA,B") = Except.error missingMsg ∧
    parseCsv ("Relation\nA,B") = Except.error missingMsg :=
  ⟨rfl, rfl⟩

/-! ## C6: the quoted-comma example row -/

/-- The section-8 example data row. -/
def acmeRow : List Char := ("\"Acme, Inc.\",ABCDE1234F,Organisation").data

/-- C6: under any header whose quote-stripped cells place Entity Name at
position 0, PAN at position 1 and Entity Type at position 2, the example
row splits into exactly three fields by the tolerant rule (the quoted field
keeps its embedded comma) and parses to the single expected record with the
delimiting quotes stripped. -/
theorem claimC6 (h : List Char)
    (hn : jsIndexOf (headerCells h) (("Entity Name").data) = 0)
    (hp : jsIndexOf (headerCells h) (("PAN").data) = 1)
    (ht : jsIndexOf (headerCells h) (("Entity Type").data) = 2) :
    tokenize acmeRow
      = [("\"Acme, Inc.\"").data, ("ABCDE1234F").data, ("Organisation").data] ∧
    parseCsvLines [h, acmeRow]
      = Except.ok [⟨"ABCDE1234F", Relation.PAN_Of, "Acme, Inc.", EntityType.Organisation⟩] := by
  refine ⟨by decide, ?_⟩
  unfold parseCsvLines
  simp only [List.length_cons, List.headD, List.drop_succ_cons, List.drop_zero, hp, hn, ht]
  norm_num
  decide

/-- Witness for C6 at the concrete header naming the three columns in the
order entity name, identifier, entity type. -/
theorem claimC6_witness :
    tokenize acmeRow
      = [("\"Acme, Inc.\"").data, ("ABCDE1234F").data, ("Organisation").data] ∧
    parseCsvLines [("Entity Name,PAN,Entity Type").data, acmeRow]
      = Except.ok [⟨"ABCDE1234F", Relation.PAN_Of, "Acme, Inc.", EntityType.Organisation⟩] :=
  claimC6 (("Entity Name,PAN,Entity Type").data) (by decide) (by decide) (by decide)

/-! ## C9: invariants of every parsed record -/

/-- dropWhile is idempotent. -/
lemma dropWhile_dropWhile (p : Char → Bool) (l : List Char) :
    (l.dropWhile p).dropWhile p = l.dropWhile p := by
  induction l with
  | nil => rfl
  | cons c t ih =>
    by_cases h : p c
    · simp [List.dropWhile_cons, h, ih]
    · simp [List.dropWhile_cons, h]

/-- jsTrim written with rdropWhile. -/
lemma jsTrim_eq (cs : List Char) :
    jsTrim cs = List.rdropWhile isJsSpace (cs.dropWhile isJsSpace) := rfl

/-- rdropWhile is idempotent. -/
lemma rdrop_rdrop (l : List Char) :
    List.rdropWhile isJsSpace (List.rdropWhile isJsSpace l) = List.rdropWhile isJsSpace l := by
  unfold List.rdropWhile
  rw [List.reverse_reverse, dropWhile_dropWhile]

/-- jsTrim is idempotent. -/
lemma jsTrim_idem (cs : List Char) : jsTrim (jsTrim cs) = jsTrim cs := by
  rw [jsTrim_eq, jsTrim_eq]
  have hda : (cs.dropWhile isJsSpace).dropWhile isJsSpace = cs.dropWhile isJsSpace :=
    dropWhile_dropWhile _ _
  have hd : (List.rdropWhile isJsSpace (cs.dropWhile isJsSpace)).dropWhile isJsSpace
      = List.rdropWhile isJsSpace (cs.dropWhile isJsSpace) := by
    cases hb : List.rdropWhile isJsSpace (cs.dropWhile isJsSpace) with
    | nil => rfl
    | cons c t =>
      obtain ⟨rest, hrest⟩ := List.rdropWhile_prefix isJsSpace (cs.dropWhile isJsSpace)
      rw [hb] at hrest
      have hc : isJsSpace c = false := by
        by_cases hpc : isJsSpace c
        · exfalso
          have h0 := hda
          rw [← hrest, List.cons_append, List.dropWhile_cons, if_pos hpc] at h0
          have hle : (List.dropWhile isJsSpace (t ++ rest)).length ≤ (t ++ rest).length :=
            (List.dropWhile_sublist isJsSpace).length_le
          rw [h0] at hle
          simp at hle
        · simpa using hpc
      rw [List.dropWhile_cons, hc]
      simp
  rw [hd, rdrop_rdrop]

/-- Characters survive jsTrim only if present in the input. -/
lemma mem_jsTrim (c : Char) (cs : List Char) (h : c ∈ jsTrim cs) : c ∈ cs := by
  unfold jsTrim at h
  rw [List.mem_reverse] at h
  have h2 := (List.dropWhile_sublist isJsSpace).subset h
  rw [List.mem_reverse] at h2
  exact (List.dropWhile_sublist isJsSpace).subset h2

/-- Quote stripping leaves no double quote behind. -/
lemma stripQuotes_no_quote (cs : List Char) : ('"') ∉ stripQuotes cs := by
  intro h
  rcases List.mem_filter.mp h with ⟨_, hq⟩
  simp at hq

/-- Every field value of a data line is quote-free. -/
lemma lineValues_no_quote (line : List Char) : ∀ v ∈ lineValues line, ('"') ∉ v := by
  intro v hv
  rcases List.mem_map.mp hv with ⟨t, _, rfl⟩
  exact stripQuotes_no_quote t

/-- Indexing into quote-free values stays quote-free. -/
lemma value_no_quote (vs : List (List Char)) (i : Int) (hv : ∀ v ∈ vs, ('"') ∉ v) :
    ('"') ∉ (jsAt vs i).getD [] := by
  unfold jsAt
  split
  · simp
  · cases hg : vs.get? i.toNat with
    | none => simp [hg]
    | some w =>
      simp only [hg, Option.getD_some]
      exact hv w (List.get?_mem hg)

/-- Field invariants of every record a data line produces, whatever the
header positions are. -/
lemma rowEntity_inv (pi ni ti : Int) (line : List Char) :
    ('"') ∉ (rowEntity pi ni ti line).pan.data ∧
    ('"') ∉ (rowEntity pi ni ti line).entityName.data ∧
    jsTrim (rowEntity pi ni ti line).pan.data = (rowEntity pi ni ti line).pan.data ∧
    jsTrim (rowEntity pi ni ti line).entityName.data = (rowEntity pi ni ti line).entityName.data ∧
    (rowEntity pi ni ti line).relation = Relation.PAN_Of ∧
    ((rowEntity pi ni ti line).entityType = EntityType.Organisation ∨
      (rowEntity pi ni ti line).entityType = EntityType.Name) := by
  refine ⟨?_, ?_, ?_, ?_, rfl, ?_⟩
  · intro hm
    exact value_no_quote (lineValues line) pi (lineValues_no_quote line) (mem_jsTrim _ _ hm)
  · intro hm
    exact value_no_quote (lineValues line) ni (lineValues_no_quote line) (mem_jsTrim _ _ hm)
  · exact jsTrim_idem _
  · exact jsTrim_idem _
  · show (if jsTrim ((jsAt (lineValues line) ti).getD []) == ("Organisation").data then
        EntityType.Organisation else EntityType.Name) = EntityType.Organisation ∨
      (if jsTrim ((jsAt (lineValues line) ti).getD []) == ("Organisation").data then
        EntityType.Organisation else EntityType.Name) = EntityType.Name
    split
    · exact Or.inl rfl
    · exact Or.inr rfl

/-- C9: every record parseCsv returns has a nonempty pan and entity name,
both free of double quotes and stable under trimming (so no leading or
trailing whitespace), carries the fixed relation tag, and one of the two
entity types. -/
theorem claimC9 (s : String) (recs : List ExtractedEntity) (r : ExtractedEntity)
    (h : parseCsv s = Except.ok recs) (hr : r ∈ recs) :
    r.pan ≠ "" ∧ r.entityName ≠ "" ∧
    ('"') ∉ r.pan.data ∧ ('"') ∉ r.entityName.data ∧
    jsTrim r.pan.data = r.pan.data ∧ jsTrim r.entityName.data = r.entityName.data ∧
    r.relation = Relation.PAN_Of ∧
    (r.entityType = EntityType.Organisation ∨ r.entityType = EntityType.Name) := by
  unfold parseCsv parseCsvLines at h
  by_cases h2 : (splitLinesJs (jsTrim s.data)).length < 2
  · rw [if_pos h2] at h
    injection h with h
    subst h
    exact absurd hr (List.not_mem_nil r)
  · rw [if_neg h2] at h
    by_cases hc :
      (jsIndexOf (headerCells ((splitLinesJs (jsTrim s.data)).headD [])) (("PAN").data) == -1
        || jsIndexOf (headerCells ((splitLinesJs (jsTrim s.data)).headD [])) (("Entity Name").data) == -1
        || jsIndexOf (headerCells ((splitLinesJs (jsTrim s.data)).headD [])) (("Entity Type").data) == -1)
        = true
    · rw [if_pos hc] at h
      exact Except.noConfusion h
    · rw [if_neg hc] at h
      injection h with h
      subst h
      rcases List.mem_filter.mp hr with ⟨hmem, hkeep⟩
      rcases List.mem_map.mp hmem with ⟨line, _, rfl⟩
      simp only [Bool.and_eq_true, Bool.not_eq_true', beq_eq_false_iff_ne] at hkeep
      obtain ⟨inv1, inv2, inv3, inv4, inv5, inv6⟩ := rowEntity_inv
        (jsIndexOf (headerCells ((splitLinesJs (jsTrim s.data)).headD [])) (("PAN").data))
        (jsIndexOf (headerCells ((splitLinesJs (jsTrim s.data)).headD [])) (("Entity Name").data))
        (jsIndexOf (headerCells ((splitLinesJs (jsTrim s.data)).headD [])) (("Entity Type").data))
        line
      exact ⟨hkeep.1, hkeep.2, inv1, inv2, inv3, inv4, inv5, inv6⟩

/-- The record of the C9 witness file. -/
def rec0 : ExtractedEntity := ⟨"A", Relation.PAN_Of, "B", EntityType.Organisation⟩

/-- Witness for C9 at a concrete one-row CSV. -/
theorem claimC9_witness :
    rec0.pan ≠ "" ∧ rec0.entityName ≠ "" ∧
    ('"') ∉ rec0.pan.data ∧ ('"') ∉ rec0.entityName.data ∧
    jsTrim rec0.pan.data = rec0.pan.data ∧ jsTrim rec0.entityName.data = rec0.entityName.data ∧
    rec0.relation = Relation.PAN_Of ∧
    (rec0.entityType = EntityType.Organisation ∨ rec0.entityType = EntityType.Name) :=
  claimC9 ("PAN,Entity Name,Entity Type\nA,B,Organisation") [rec0] rec0 rfl
    (List.mem_singleton.mpr rfl)

/-! ## C3: tokenizer rewriting lemmas -/

/-- The empty line has no tokens. -/
lemma tokenize_nil : tokenize [] = [] := rfl

/-! ## C3: row-level and file-level round-trip lemmas -/

end QueryAgent
